import Mathlib

/-!
Verification development for the continuous voice-command pipeline
(`sandbox/wake-whisper-continuous`, chiefly `event_driven_v3.py` with
`config.py` and, for the session timeout, `continuous_main.py`).

Embedding conventions:
* stream times and wall-clock times are rationals (seconds); sample values
  are integers (the int16 range is irrelevant to the properties below);
* Python `int(x)` is truncation toward zero (`pyInt`);
* Python dicts keyed by session id / level are association lists in
  insertion order, with assignment replacing in place (`assocSet`);
* the RMS comparison `rms < SILENCE_THRESHOLD` is embedded as
  `meanSquares < SILENCE_THRESHOLD ^ 2`, which is equivalent for
  non-negative quantities and keeps everything rational;
* `numpy` truthiness of an `Optional[ndarray]` raises `ValueError` on
  arrays of more than one element; fallible paths return `Except`.
-/

namespace VoiceAgent

/-! ## Configuration constants (config.py) -/

def SAMPLE_RATE : ℚ := 16000

def CHUNK_SIZE : ℕ := 512

def SILENCE_THRESHOLD : ℚ := 300

def SILENCE_DURATION : ℚ := 2

def INITIAL_SILENCE_IGNORE : ℚ := 3

def BUFFER_SECONDS : ℕ := 300

structure LevelConfig where
  duration : ℚ
  overlap : ℚ
deriving DecidableEq

/-- config.py BUFFER_LEVELS (colors dropped). -/
def BUFFER_LEVELS : List (String × LevelConfig) :=
  [("short", ⟨3, 1⟩), ("medium", ⟨8, 2⟩), ("long", ⟨20, 5⟩), ("ultra", ⟨120, 0⟩)]

/-- Python `int()` applied to a rational: truncation toward zero. -/
def pyInt (q : ℚ) : ℤ := if 0 ≤ q then ⌊q⌋ else -⌊-q⌋

/-! ## Ring buffer (event_driven_v3.py lines 62-66, 128-130, 502-522) -/

/-- The shared ring buffer: the retained samples (oldest first, at most
`BUFFER_SECONDS * SAMPLE_RATE` of them) and the monotone total-sample
counter. -/
structure RingBuffer where
  data : List ℤ
  total_samples : ℕ
deriving DecidableEq

/-- Python `get_stream_position`: `total_samples / SAMPLE_RATE`. -/
def streamPos (b : RingBuffer) : ℚ := (b.total_samples : ℚ) / SAMPLE_RATE

/-- Stream time of the start of the retained window
(`current_position - buffer_duration` in `extract_audio_segment`). -/
def bufferStart (b : RingBuffer) : ℚ := streamPos b - (b.data.length : ℚ) / SAMPLE_RATE

/-- Stream time of retained sample `k` (0 = oldest retained sample). -/
def sampleTime (b : RingBuffer) (k : ℕ) : ℚ := bufferStart b + (k : ℚ) / SAMPLE_RATE

/-- Python `start_sample = int(max(0, (start - buffer_start_time) * SAMPLE_RATE))`. -/
def startSampleOf (b : RingBuffer) (s : ℚ) : ℤ :=
  pyInt (max 0 ((s - bufferStart b) * SAMPLE_RATE))

/-- Python `end_sample = int(min(len(buffer_array), (end - buffer_start_time) * SAMPLE_RATE))`. -/
def endSampleOf (b : RingBuffer) (e : ℚ) : ℤ :=
  pyInt (min (b.data.length : ℚ) ((e - bufferStart b) * SAMPLE_RATE))

/-- Python `extract_audio_segment(start, end)` (event_driven_v3.py lines 502-522). -/
def extract_audio_segment (b : RingBuffer) (s e : ℚ) : Option (List ℤ) :=
  if b.data.length = 0 then none
  else
    let ss := startSampleOf b s
    let es := endSampleOf b e
    if es ≤ ss then none
    else some ((b.data.drop ss.toNat).take (es - ss).toNat)

/-- The retained samples whose stream-times fall in `[s, e)` — the behaviour
the specification ascribes to `extract`; used to compare against
`extract_audio_segment`. -/
def samplesInRange (b : RingBuffer) (s e : ℚ) : List ℤ :=
  ((List.range b.data.length).filter
    (fun k => decide (s ≤ sampleTime b k) && decide (sampleTime b k < e))).map
    (fun k => b.data.getD k 0)

/-! ## Sessions, levels, and the level manager (event_driven_v3.py lines 251-328) -/

/-- Per-session state stored in `active_sessions`.  `silence_count` is created
on demand by `detect_silence` with default 0, so it is carried here with
initial value 0. -/
structure Session where
  wake_word_start : ℚ
  wake_word_end : ℚ
  start_time : ℚ
  last_level_check : List (String × ℚ)
  silence_count : ℕ
deriving DecidableEq

/-- The `TranscribeRequest` dataclass (the Python `end` field is `end_` here). -/
structure TranscribeRequest where
  session_id : String
  level : String
  start : ℚ
  end_ : ℚ
  timestamp : ℚ
deriving DecidableEq

/-- Python dict assignment `d[k] = v`: replace in place, else append. -/
def assocSet {α : Type} (l : List (String × α)) (k : String) (v : α) :
    List (String × α) :=
  match l with
  | [] => [(k, v)]
  | (k0, v0) :: t => if k0 = k then (k, v) :: t else (k0, v0) :: assocSet t k v

/-- Python `del d[k]` (no-op when the key is missing, as after an
`in`-check). -/
def assocErase {α : Type} (l : List (String × α)) (k : String) :
    List (String × α) :=
  match l with
  | [] => []
  | (k0, v0) :: t => if k0 = k then t else (k0, v0) :: assocErase t k

theorem lookup_assocSet_self {α : Type} (l : List (String × α)) (k : String) (v : α) :
    (assocSet l k v).lookup k = some v := by
  induction l with
  | nil => simp [assocSet, List.lookup]
  | cons p t ih =>
    obtain ⟨k0, v0⟩ := p
    by_cases h : k0 = k
    · simp [assocSet, h, List.lookup]
    · simp only [assocSet, if_neg h, List.lookup]
      have : (k == k0) = false := by
        simp [beq_eq_false_iff_ne]
        exact fun hk => h hk.symm
      simp [this, ih]

theorem lookup_assocSet_ne {α : Type} (l : List (String × α)) (k k0 : String) (v : α)
    (h : k0 ≠ k) : (assocSet l k v).lookup k0 = l.lookup k0 := by
  induction l with
  | nil => simp [assocSet, List.lookup, beq_eq_false_iff_ne.mpr h]
  | cons p t ih =>
    obtain ⟨k1, v1⟩ := p
    by_cases h1 : k1 = k
    · subst h1
      simp [assocSet, List.lookup, beq_eq_false_iff_ne.mpr h]
    · simp only [assocSet, if_neg h1, List.lookup]
      by_cases h2 : k0 = k1
      · simp [h2]
      · have : (k0 == k1) = false := beq_eq_false_iff_ne.mpr h2
        simp [this, ih]

/-- Python `session["last_level_check"].get(level, 0)`. -/
def lastCheck (s : Session) (lv : String) : ℚ :=
  (s.last_level_check.lookup lv).getD 0

/-- One iteration of the inner level loop of `level_manager_worker`
(lines 301-322), acting on the accumulated requests and the map
`last_level_check` of the session. -/
def levelStep (now pos : ℚ) (sid : String) (wake_end : ℚ)
    (acc : List TranscribeRequest × List (String × ℚ)) (lv : String × LevelConfig) :
    List TranscribeRequest × List (String × ℚ) :=
  if lv.1 = "ultra" then acc
  else if lv.2.duration ≤ pos - wake_end then
    if lv.2.duration - lv.2.overlap ≤ now - ((acc.2.lookup lv.1).getD 0) then
      (acc.1 ++ [⟨sid, lv.1, wake_end, min (wake_end + lv.2.duration) pos, now⟩],
       assocSet acc.2 lv.1 now)
    else acc
  else acc

/-- The per-session body of `level_manager_worker` (lines 296-322):
`now` is `time.time()`, `pos` is `get_stream_position()`, both read once
before the loop. -/
def levelRequestsFor (now pos : ℚ) (sid : String) (s : Session) :
    List TranscribeRequest × Session :=
  let r := BUFFER_LEVELS.foldl (levelStep now pos sid s.wake_word_end)
    ([], s.last_level_check)
  (r.1, { s with last_level_check := r.2 })

/-- The request issued for a given level. -/
def mkLevelReq (sid lv : String) (D wake_end now pos : ℚ) : TranscribeRequest :=
  ⟨sid, lv, wake_end, min (wake_end + D) pos, now⟩

theorem levelStep_ultra (now pos : ℚ) (sid : String) (w : ℚ)
    (acc : List TranscribeRequest × List (String × ℚ)) (cfg : LevelConfig) :
    levelStep now pos sid w acc ("ultra", cfg) = acc := by
  simp [levelStep]

theorem levelStep_short (now pos : ℚ) (sid : String) (w : ℚ)
    (acc : List TranscribeRequest × List (String × ℚ)) :
    levelStep now pos sid w acc ("short", ⟨3, 1⟩) =
      if 3 ≤ pos - w then
        if 2 ≤ now - ((acc.2.lookup "short").getD 0)
        then (acc.1 ++ [⟨sid, "short", w, min (w + 3) pos, now⟩], assocSet acc.2 "short" now)
        else acc
      else acc := by
  simp only [levelStep]
  rw [if_neg (by decide : ¬ ("short" : String) = "ultra")]
  norm_num

theorem levelStep_medium (now pos : ℚ) (sid : String) (w : ℚ)
    (acc : List TranscribeRequest × List (String × ℚ)) :
    levelStep now pos sid w acc ("medium", ⟨8, 2⟩) =
      if 8 ≤ pos - w then
        if 6 ≤ now - ((acc.2.lookup "medium").getD 0)
        then (acc.1 ++ [⟨sid, "medium", w, min (w + 8) pos, now⟩], assocSet acc.2 "medium" now)
        else acc
      else acc := by
  simp only [levelStep]
  rw [if_neg (by decide : ¬ ("medium" : String) = "ultra")]
  norm_num

theorem levelStep_long (now pos : ℚ) (sid : String) (w : ℚ)
    (acc : List TranscribeRequest × List (String × ℚ)) :
    levelStep now pos sid w acc ("long", ⟨20, 5⟩) =
      if 20 ≤ pos - w then
        if 15 ≤ now - ((acc.2.lookup "long").getD 0)
        then (acc.1 ++ [⟨sid, "long", w, min (w + 20) pos, now⟩], assocSet acc.2 "long" now)
        else acc
      else acc := by
  simp only [levelStep]
  rw [if_neg (by decide : ¬ ("long" : String) = "ultra")]
  norm_num

/-- Closed form of one level-manager scan of a session: requests for
`short`, `medium`, `long` exactly under the readiness and overlap-interval
conditions, with ranges `[wake_end, min (wake_end + D) pos]`. -/
theorem levelRequestsFor_closed (now pos : ℚ) (sid : String) (s : Session) :
    (levelRequestsFor now pos sid s).1 =
      (if 3 ≤ pos - s.wake_word_end ∧ 2 ≤ now - lastCheck s "short"
        then [mkLevelReq sid "short" 3 s.wake_word_end now pos] else []) ++
      (if 8 ≤ pos - s.wake_word_end ∧ 6 ≤ now - lastCheck s "medium"
        then [mkLevelReq sid "medium" 8 s.wake_word_end now pos] else []) ++
      (if 20 ≤ pos - s.wake_word_end ∧ 15 ≤ now - lastCheck s "long"
        then [mkLevelReq sid "long" 20 s.wake_word_end now pos] else []) := by
  have hms : ("medium" : String) ≠ "short" := by decide
  have hls : ("long" : String) ≠ "short" := by decide
  have hlm : ("long" : String) ≠ "medium" := by decide
  simp only [levelRequestsFor, BUFFER_LEVELS, List.foldl_cons, List.foldl_nil,
    levelStep_ultra, levelStep_short, levelStep_medium, levelStep_long, lastCheck, mkLevelReq]
  simp only [apply_ite Prod.fst, apply_ite Prod.snd, apply_ite (List.lookup "medium"),
    apply_ite (List.lookup "long"), lookup_assocSet_ne _ _ _ _ hms,
    lookup_assocSet_ne _ _ _ _ hls, lookup_assocSet_ne _ _ _ _ hlm, ite_self]
  split_ifs with h1 h2 h3 h4 h5 h6 <;> simp_all

/-- C5: for each session and each partial level (short: D=3, O=1; medium:
D=8, O=2; long: D=20, O=5), one level-manager scan issues a
`TranscribeRequest` exactly when `pos - wake_word.end ≥ D` and
`now - last_level_check[level] ≥ D - O`, and that request covers exactly
`[wake_word.end, min (wake_word.end + D) pos]`. -/
theorem level_manager_issues_iff (now pos : ℚ) (sid : String) (s : Session)
    (req : TranscribeRequest) :
    req ∈ (levelRequestsFor now pos sid s).1 ↔
      ((3 ≤ pos - s.wake_word_end ∧ 3 - 1 ≤ now - lastCheck s "short" ∧
          req = mkLevelReq sid "short" 3 s.wake_word_end now pos) ∨
        (8 ≤ pos - s.wake_word_end ∧ 8 - 2 ≤ now - lastCheck s "medium" ∧
          req = mkLevelReq sid "medium" 8 s.wake_word_end now pos) ∨
        (20 ≤ pos - s.wake_word_end ∧ 20 - 5 ≤ now - lastCheck s "long" ∧
          req = mkLevelReq sid "long" 20 s.wake_word_end now pos)) := by
  rw [levelRequestsFor_closed]
  norm_num
  tauto

/-! ## Arithmetic facts about `pyInt` and the extraction indices -/

theorem pyInt_intCast (m : ℤ) : pyInt (m : ℚ) = m := by
  unfold pyInt
  split_ifs with h
  · exact Int.floor_intCast m
  · rw [← Int.cast_neg, Int.floor_intCast]
    ring

theorem pyInt_zero : pyInt 0 = 0 := by
  simpa using pyInt_intCast 0

theorem pyInt_mono {x y : ℚ} (h : x ≤ y) : pyInt x ≤ pyInt y := by
  unfold pyInt
  split_ifs with hx hy
  · exact Int.floor_le_floor h
  · exact absurd (hx.trans h) hy
  · have h1 : 0 ≤ ⌊-x⌋ := Int.le_floor.mpr (by push_cast; linarith)
    have h2 : 0 ≤ ⌊y⌋ := Int.le_floor.mpr (by push_cast; linarith)
    omega
  · have : ⌊-y⌋ ≤ ⌊-x⌋ := Int.floor_le_floor (by linarith)
    omega

theorem SAMPLE_RATE_pos : (0 : ℚ) < SAMPLE_RATE := by norm_num [SAMPLE_RATE]

/-- The product `(streamPos b - bufferStart b) * SAMPLE_RATE` is the retained length. -/
theorem window_span (b : RingBuffer) :
    (streamPos b - bufferStart b) * SAMPLE_RATE = (b.data.length : ℚ) := by
  have h : SAMPLE_RATE ≠ 0 := ne_of_gt SAMPLE_RATE_pos
  field_simp [bufferStart]

theorem startSampleOf_nonneg (b : RingBuffer) (s : ℚ) : 0 ≤ startSampleOf b s := by
  have := pyInt_mono (le_max_left 0 ((s - bufferStart b) * SAMPLE_RATE))
  rwa [pyInt_zero] at this

theorem endSampleOf_le_length (b : RingBuffer) (e : ℚ) :
    endSampleOf b e ≤ (b.data.length : ℤ) := by
  have h1 : min ((b.data.length : ℚ)) ((e - bufferStart b) * SAMPLE_RATE) ≤
      ((b.data.length : ℤ) : ℚ) := by
    push_cast
    exact min_le_left _ _
  have := pyInt_mono h1
  rwa [pyInt_intCast] at this

/-- Extraction is absent when `start ≥ end`. -/
theorem extract_none_of_le (b : RingBuffer) (s e : ℚ) (h : e ≤ s) :
    extract_audio_segment b s e = none := by
  simp only [extract_audio_segment]
  split_ifs with h0 h1
  · rfl
  · rfl
  · exfalso
    apply h1
    apply pyInt_mono
    calc min ((b.data.length : ℚ)) ((e - bufferStart b) * SAMPLE_RATE)
        ≤ (e - bufferStart b) * SAMPLE_RATE := min_le_right _ _
      _ ≤ (s - bufferStart b) * SAMPLE_RATE := by
          have := SAMPLE_RATE_pos
          nlinarith
      _ ≤ max 0 ((s - bufferStart b) * SAMPLE_RATE) := le_max_right _ _

/-- Extraction is absent when the range lies entirely before the retained
window. -/
theorem extract_none_of_before (b : RingBuffer) (s e : ℚ) (h : e ≤ bufferStart b) :
    extract_audio_segment b s e = none := by
  simp only [extract_audio_segment]
  split_ifs with h0 h1
  · rfl
  · rfl
  · exfalso
    apply h1
    have he : endSampleOf b e ≤ 0 := by
      have h2 : min ((b.data.length : ℚ)) ((e - bufferStart b) * SAMPLE_RATE) ≤ 0 := by
        have : (e - bufferStart b) * SAMPLE_RATE ≤ 0 := by
          have := SAMPLE_RATE_pos
          nlinarith
        exact (min_le_right _ _).trans this
      have := pyInt_mono h2
      rwa [pyInt_zero] at this
    exact he.trans (startSampleOf_nonneg b s)

/-- Extraction is absent when the range lies entirely in the future. -/
theorem extract_none_of_future (b : RingBuffer) (s e : ℚ) (h : streamPos b ≤ s) :
    extract_audio_segment b s e = none := by
  simp only [extract_audio_segment]
  split_ifs with h0 h1
  · rfl
  · rfl
  · exfalso
    apply h1
    have hs : (b.data.length : ℤ) ≤ startSampleOf b s := by
      have h2 : ((b.data.length : ℤ) : ℚ) ≤ max 0 ((s - bufferStart b) * SAMPLE_RATE) := by
        have h3 : (b.data.length : ℚ) ≤ (s - bufferStart b) * SAMPLE_RATE := by
          rw [← window_span b]
          have := SAMPLE_RATE_pos
          nlinarith
        push_cast
        exact h3.trans (le_max_right _ _)
      have := pyInt_mono h2
      rwa [pyInt_intCast] at this
    exact (endSampleOf_le_length b e).trans hs

/-- Clipping: a start at or before the window start maps to the oldest
retained sample. -/
theorem startSampleOf_clip (b : RingBuffer) (s : ℚ) (h : s ≤ bufferStart b) :
    startSampleOf b s = 0 := by
  unfold startSampleOf
  have hle : (s - bufferStart b) * SAMPLE_RATE ≤ 0 := by
    have := SAMPLE_RATE_pos
    nlinarith
  rw [max_eq_left hle, pyInt_zero]

theorem extract_some_eq (b : RingBuffer) (s e : ℚ) (l : List ℤ)
    (h : extract_audio_segment b s e = some l) :
    b.data.length ≠ 0 ∧ startSampleOf b s < endSampleOf b e ∧
      l = (b.data.drop (startSampleOf b s).toNat).take
        (endSampleOf b e - startSampleOf b s).toNat := by
  simp only [extract_audio_segment] at h
  by_cases h0 : b.data.length = 0
  · rw [if_pos h0] at h
    exact absurd h (by simp)
  · rw [if_neg h0] at h
    by_cases h1 : endSampleOf b e ≤ startSampleOf b s
    · rw [if_pos h1] at h
      exact absurd h (by simp)
    · rw [if_neg h1] at h
      exact ⟨h0, not_le.mp h1, (Option.some_inj.mp h).symm⟩

theorem extract_some_length (b : RingBuffer) (s e : ℚ) (l : List ℤ)
    (h : extract_audio_segment b s e = some l) :
    (l.length : ℤ) = endSampleOf b e - startSampleOf b s := by
  obtain ⟨h0, hlt, rfl⟩ := extract_some_eq b s e l h
  have hss := startSampleOf_nonneg b s
  have hes := endSampleOf_le_length b e
  simp only [List.length_take, List.length_drop]
  omega

theorem extract_some_get (b : RingBuffer) (s e : ℚ) (l : List ℤ)
    (h : extract_audio_segment b s e = some l) (i : ℕ) (hi : i < l.length) :
    l[i]? = b.data[(startSampleOf b s).toNat + i]? := by
  have hlen := extract_some_length b s e l h
  obtain ⟨h0, hlt, rfl⟩ := extract_some_eq b s e l h
  rw [List.getElem?_take, if_pos (by omega), List.getElem?_drop]

theorem startSampleOf_align (b : RingBuffer) (s : ℚ) (m : ℤ)
    (hs : (s - bufferStart b) * SAMPLE_RATE = (m : ℚ)) :
    startSampleOf b s = max 0 m := by
  unfold startSampleOf
  rw [hs]
  have hcast : (max 0 ((m : ℤ) : ℚ)) = ((max 0 m : ℤ) : ℚ) := by
    push_cast
    rfl
  rw [hcast, pyInt_intCast]

theorem endSampleOf_align (b : RingBuffer) (e : ℚ) (m2 : ℤ)
    (he : (e - bufferStart b) * SAMPLE_RATE = (m2 : ℚ)) :
    endSampleOf b e = min (b.data.length : ℤ) m2 := by
  unfold endSampleOf
  rw [he]
  have hcast : (min ((b.data.length : ℕ) : ℚ) ((m2 : ℤ) : ℚ)) =
      ((min (b.data.length : ℤ) m2 : ℤ) : ℚ) := by
    push_cast
    rfl
  rw [hcast, pyInt_intCast]

theorem le_sampleTime_iff (b : RingBuffer) (s : ℚ) (m : ℤ) (k : ℕ)
    (hs : (s - bufferStart b) * SAMPLE_RATE = (m : ℚ)) :
    s ≤ sampleTime b k ↔ m ≤ (k : ℤ) := by
  have hSR := SAMPLE_RATE_pos
  rw [sampleTime, ← sub_le_iff_le_add', le_div_iff hSR, hs]
  exact_mod_cast Iff.rfl

theorem sampleTime_lt_iff (b : RingBuffer) (e : ℚ) (m2 : ℤ) (k : ℕ)
    (he : (e - bufferStart b) * SAMPLE_RATE = (m2 : ℚ)) :
    sampleTime b k < e ↔ (k : ℤ) < m2 := by
  have hSR := SAMPLE_RATE_pos
  rw [sampleTime, ← lt_sub_iff_add_lt', div_lt_iff hSR, he]
  exact_mod_cast Iff.rfl

/-- On sample-aligned bounds, the extracted slice is exactly the set of
retained samples whose stream-times fall in `[s, e)`. -/
theorem extract_aligned_mem (b : RingBuffer) (s e : ℚ) (m m2 : ℤ)
    (hs : (s - bufferStart b) * SAMPLE_RATE = (m : ℚ))
    (he : (e - bufferStart b) * SAMPLE_RATE = (m2 : ℚ))
    (l : List ℤ) (h : extract_audio_segment b s e = some l)
    (k : ℕ) (hk : k < b.data.length) :
    (s ≤ sampleTime b k ∧ sampleTime b k < e) ↔
      ((startSampleOf b s).toNat ≤ k ∧ k < (startSampleOf b s).toNat + l.length) := by
  have hlen := extract_some_length b s e l h
  have hss := startSampleOf_align b s m hs
  have hes := endSampleOf_align b e m2 he
  rw [le_sampleTime_iff b s m k hs, sampleTime_lt_iff b e m2 k he, hss]
  rw [hss, hes] at hlen
  omega

/-- C6 amended: `extract(start, end)` is absent when `start ≥ end`, when the
range lies entirely before the retained window, or entirely at/after the
stream position; a start at or before the window start is clipped to the
oldest retained sample (index 0); a returned segment is the contiguous run
of retained samples beginning at `start_sample`, and for sample-aligned
bounds its indices are exactly those whose stream-times fall in
`[start, end)`.  (For non-aligned bounds the code truncates with `int`, so
the slice can begin one sample before `start` — see the counterexample.) -/
theorem extract_audio_segment_characterization (b : RingBuffer) (s e : ℚ) :
    (e ≤ s → extract_audio_segment b s e = none) ∧
    (e ≤ bufferStart b → extract_audio_segment b s e = none) ∧
    (streamPos b ≤ s → extract_audio_segment b s e = none) ∧
    (s ≤ bufferStart b → startSampleOf b s = 0) ∧
    (∀ l, extract_audio_segment b s e = some l →
      (∀ i, i < l.length → l[i]? = b.data[(startSampleOf b s).toNat + i]?) ∧
      (∀ m m2 : ℤ, (s - bufferStart b) * SAMPLE_RATE = (m : ℚ) →
        (e - bufferStart b) * SAMPLE_RATE = (m2 : ℚ) →
        ∀ k, k < b.data.length →
          ((s ≤ sampleTime b k ∧ sampleTime b k < e) ↔
            ((startSampleOf b s).toNat ≤ k ∧
              k < (startSampleOf b s).toNat + l.length)))) :=
  ⟨extract_none_of_le b s e, extract_none_of_before b s e, extract_none_of_future b s e,
    startSampleOf_clip b s,
    fun l h => ⟨extract_some_get b s e l h,
      fun m m2 hm hm2 k hk => extract_aligned_mem b s e m m2 hm hm2 l h k hk⟩⟩

/-- Witness for the C6 amended theorem at a concrete aligned input:
buffer `[5, 6, 7, 8]`, range `[1/16000, 3/16000)` extracts `[6, 7]`. -/
theorem extract_audio_segment_characterization_witness :
    extract_audio_segment ⟨[5, 6, 7, 8], 4⟩ (1 / 16000) (3 / 16000) = some [6, 7] ∧
    ((1 / 16000 : ℚ) ≤ sampleTime ⟨[5, 6, 7, 8], 4⟩ 2 ∧
        sampleTime ⟨[5, 6, 7, 8], 4⟩ 2 < 3 / 16000 ↔
      ((startSampleOf ⟨[5, 6, 7, 8], 4⟩ (1 / 16000)).toNat ≤ 2 ∧
        2 < (startSampleOf ⟨[5, 6, 7, 8], 4⟩ (1 / 16000)).toNat + 2)) := by
  have hx : extract_audio_segment ⟨[5, 6, 7, 8], 4⟩ (1 / 16000) (3 / 16000) = some [6, 7] := by
    norm_num [extract_audio_segment, startSampleOf, endSampleOf, bufferStart, streamPos,
      pyInt, SAMPLE_RATE]
    decide
  refine ⟨hx, ?_⟩
  have h2 := ((extract_audio_segment_characterization ⟨[5, 6, 7, 8], 4⟩
      (1 / 16000) (3 / 16000)).2.2.2.2 [6, 7] hx).2 1 3
    (by norm_num [bufferStart, streamPos, SAMPLE_RATE])
    (by norm_num [bufferStart, streamPos, SAMPLE_RATE]) 2 (by norm_num)
  simpa using h2

/-- C6 counterexample: for the non-sample-aligned start `3/32000` the code
returns `[2, 3, 4]`, whose first sample (retained index 1) has stream-time
`1/16000 < 3/32000`; the samples with stream-times in `[start, end)` are
only `[3, 4]`.  So `extract` does not return exactly the samples whose
stream-times fall in `[start, end)`. -/
theorem extract_not_restricted_to_range :
    extract_audio_segment ⟨[1, 2, 3, 4], 4⟩ (3 / 32000) (1 / 4000) = some [2, 3, 4] ∧
    samplesInRange ⟨[1, 2, 3, 4], 4⟩ (3 / 32000) (1 / 4000) = [3, 4] ∧
    sampleTime ⟨[1, 2, 3, 4], 4⟩ 1 < 3 / 32000 := by
  refine ⟨?_, ?_, ?_⟩
  · norm_num [extract_audio_segment, startSampleOf, endSampleOf, bufferStart, streamPos,
      pyInt, SAMPLE_RATE]
  · norm_num [samplesInRange, sampleTime, bufferStart, streamPos, SAMPLE_RATE,
      List.range_succ]
  · norm_num [sampleTime, bufferStart, streamPos, SAMPLE_RATE]

/-! ## Wake-audio exclusion (C7) -/

/-- All stream positions produced by `get_stream_position` are integer
sample counts over `SAMPLE_RATE`; extraction from such a start never reaches
earlier samples. -/
theorem extract_from_aligned_start (b : RingBuffer) (n : ℕ) (e : ℚ) (l : List ℤ)
    (h : extract_audio_segment b ((n : ℚ) / SAMPLE_RATE) e = some l)
    (i : ℕ) (hi : i < l.length) :
    l[i]? = b.data[(startSampleOf b ((n : ℚ) / SAMPLE_RATE)).toNat + i]? ∧
    (n : ℚ) / SAMPLE_RATE ≤
      sampleTime b ((startSampleOf b ((n : ℚ) / SAMPLE_RATE)).toNat + i) := by
  have h0 : SAMPLE_RATE ≠ 0 := ne_of_gt SAMPLE_RATE_pos
  have halign : (((n : ℚ) / SAMPLE_RATE) - bufferStart b) * SAMPLE_RATE =
      (((n : ℤ) - (b.total_samples : ℤ) + (b.data.length : ℤ) : ℤ) : ℚ) := by
    push_cast
    field_simp [bufferStart, streamPos]
    ring
  have hss := startSampleOf_align b _ _ halign
  refine ⟨extract_some_get b _ e l h i hi, ?_⟩
  rw [le_sampleTime_iff b _ _ _ halign, hss]
  omega

theorem mem_ite_singleton {α : Type} {c : Prop} [Decidable c] {x a : α}
    (h : a ∈ (if c then [x] else [])) : a = x := by
  split_ifs at h
  · simpa using h
  · simp at h

/-- C7: every `TranscribeRequest` a session emits starts at
`wake_word.end` (so `wake_word.end ≤ request.start`), and — since every
`wake_word.end` recorded by `on_wake_word_detected` is a stream position,
i.e. an integer sample count over `SAMPLE_RATE` — every sample of the PCM
segment extracted from such a start has stream-time `≥ wake_word.end`, even
when the buffer window has clipped the range; the wake-word interval
`[wake_word.start, wake_word.end)` is therefore never handed to ASR. -/
theorem wake_audio_excluded (now pos : ℚ) (sid : String) (s : Session) (n : ℕ)
    (hn : s.wake_word_end = (n : ℚ) / SAMPLE_RATE) :
    (∀ req ∈ (levelRequestsFor now pos sid s).1, s.wake_word_end ≤ req.start) ∧
    (∀ (b : RingBuffer) (e : ℚ) (l : List ℤ),
      extract_audio_segment b s.wake_word_end e = some l →
      ∀ i, i < l.length →
        l[i]? = b.data[(startSampleOf b s.wake_word_end).toNat + i]? ∧
        s.wake_word_end ≤ sampleTime b ((startSampleOf b s.wake_word_end).toNat + i)) := by
  constructor
  · intro req hreq
    rw [levelRequestsFor_closed] at hreq
    simp only [List.mem_append] at hreq
    have hstart : req.start = s.wake_word_end := by
      rcases hreq with (h | h) | h <;> rw [mem_ite_singleton h] <;> rfl
    rw [hstart]
  · intro b e l h i hi
    rw [hn] at h ⊢
    exact extract_from_aligned_start b n e l h i hi

/-- Witness for C7 at a concrete instance: a session with
`wake_word_end = 0`, one issued request, and one concrete extraction. -/
theorem wake_audio_excluded_witness :
    (Session.mk (-(3 / 2)) 0 1000 [] 0).wake_word_end ≤
      (mkLevelReq "s" "short" 3 0 2000 10).start ∧
    (([5, 6] : List ℤ)[0]? =
        ([5, 6] : List ℤ)[(startSampleOf ⟨[5, 6], 2⟩ ((0 : ℕ) : ℚ) ).toNat + 0]? ∧
      ((0 : ℕ) : ℚ) ≤ sampleTime ⟨[5, 6], 2⟩
        ((startSampleOf ⟨[5, 6], 2⟩ ((0 : ℕ) : ℚ)).toNat + 0)) := by
  have hn : (Session.mk (-(3 / 2)) 0 1000 [] 0).wake_word_end = ((0 : ℕ) : ℚ) / SAMPLE_RATE := by
    norm_num
  have H := wake_audio_excluded 2000 10 "s" (Session.mk (-(3 / 2)) 0 1000 [] 0) 0 hn
  have hmem : mkLevelReq "s" "short" 3 0 2000 10 ∈
      (levelRequestsFor 2000 10 "s" (Session.mk (-(3 / 2)) 0 1000 [] 0)).1 := by
    rw [levelRequestsFor_closed]
    norm_num [lastCheck, List.lookup]
  have hx : extract_audio_segment ⟨[5, 6], 2⟩ (((0 : ℕ) : ℚ)) (2 / 16000) = some [5, 6] := by
    norm_num [extract_audio_segment, startSampleOf, endSampleOf, bufferStart, streamPos,
      pyInt, SAMPLE_RATE]
  have h2 := H.2 ⟨[5, 6], 2⟩ (2 / 16000) [5, 6] (by simpa using hx) 0 (by norm_num)
  exact ⟨H.1 _ hmem, by simpa using h2⟩

/-! ## Silence monitor (event_driven_v3.py lines 154-219) -/

/-- Mean of squares of a chunk.  The code compares
`rms = sqrt(meanSquares) < SILENCE_THRESHOLD`; for non-negative values this
is equivalent to `meanSquares < SILENCE_THRESHOLD ^ 2`, which stays in ℚ. -/
def rmsSq (chunk : List ℤ) : ℚ :=
  (((chunk.map (fun x => x * x)).sum : ℤ) : ℚ) / (chunk.length : ℚ)

inductive EvType
  | wake_word
  | silence
deriving DecidableEq

/-- The `AudioEvent` dataclass with its `metadata` dict flattened: wake-word events carry
`wake_word` / `wake_word_type`, silence events carry `session_id`; unused
fields hold `""`. -/
structure AudioEvent where
  timestamp : ℚ
  stream_position : ℚ
  event_type : EvType
  start : ℚ
  end_ : ℚ
  wake_word : String
  wake_word_type : String
  session_id : String
deriving DecidableEq

/-- The silence event built at lines 206-213: `start = current_time - 5.0`,
`end = current_time` where `current_time = get_stream_position()`. -/
def mkSilenceEvent (wall pos : ℚ) (sid : String) : AudioEvent :=
  ⟨wall, pos, .silence, pos - 5, pos, "", "", sid⟩

/-- The per-session loop of `detect_silence` (lines 190-215): skip sessions
younger than `INITIAL_SILENCE_IGNORE`, increment the others, and `break`
after emitting for the first session whose counter reaches 50 (sessions
after the break keep their old counters). -/
def silenceScan (wall pos : ℚ) :
    List (String × Session) → List (String × Session) × Option AudioEvent
  | [] => ([], none)
  | (sid, s) :: rest =>
    if pos - s.wake_word_end < INITIAL_SILENCE_IGNORE then
      let r := silenceScan wall pos rest
      ((sid, s) :: r.1, r.2)
    else
      let s2 : Session := { s with silence_count := s.silence_count + 1 }
      if 50 ≤ s2.silence_count then
        ((sid, s2) :: rest, some (mkSilenceEvent wall pos sid))
      else
        let r := silenceScan wall pos rest
        ((sid, s2) :: r.1, r.2)

/-- The counter reset of the `else` branch (lines 216-219). -/
def resetCounts (sessions : List (String × Session)) : List (String × Session) :=
  sessions.map (fun p => (p.1, { p.2 with silence_count := 0 }))

/-- Python `detect_silence` (lines 181-219). -/
def detect_silence (wall pos : ℚ) (sessions : List (String × Session))
    (chunk : List ℤ) : List (String × Session) × Option AudioEvent :=
  if chunk.length = 0 then (sessions, none)
  else if 0 < sessions.length ∧ rmsSq chunk < SILENCE_THRESHOLD ^ 2 then
    silenceScan wall pos sessions
  else
    (resetCounts sessions, none)

/-- The effect of one silent monitored chunk on one session entry, as a
function: a session younger than `INITIAL_SILENCE_IGNORE` is untouched
(the boundary `pos - wake_end = 3` already counts as old), any other
session has its counter incremented once. -/
def bumpIfEligible (pos : ℚ) (p : String × Session) : String × Session :=
  if pos - p.2.wake_word_end < INITIAL_SILENCE_IGNORE then p
  else (p.1, { p.2 with silence_count := p.2.silence_count + 1 })

/-- The firing condition of one session entry on a silent monitored chunk:
the session is at least `INITIAL_SILENCE_IGNORE` old and its incremented
counter reaches the hard-coded 50. -/
def firesAt (pos : ℚ) (p : String × Session) : Prop :=
  INITIAL_SILENCE_IGNORE ≤ pos - p.2.wake_word_end ∧ 50 ≤ p.2.silence_count + 1

/-- When no session fires, the scan increments every session that is old
enough, leaves the young ones untouched, and emits nothing. -/
theorem silenceScan_no_fire (wall pos : ℚ) (l : List (String × Session))
    (h : ∀ p ∈ l, ¬ firesAt pos p) :
    silenceScan wall pos l = (l.map (bumpIfEligible pos), none) := by
  induction l with
  | nil => simp [silenceScan]
  | cons p t ih =>
    obtain ⟨sid, s⟩ := p
    have ih2 := ih (fun q hq => h q (List.mem_cons_of_mem _ hq))
    by_cases hy : pos - s.wake_word_end < INITIAL_SILENCE_IGNORE
    · simp only [silenceScan, if_pos hy, ih2, List.map_cons]
      rw [bumpIfEligible, if_pos hy]
    · have hnf := h (sid, s) (List.mem_cons_self _ _)
      have h50 : ¬ 50 ≤ s.silence_count + 1 := fun h5 => hnf ⟨not_lt.mp hy, h5⟩
      simp only [silenceScan, if_neg hy, if_neg h50, ih2, List.map_cons]
      rw [bumpIfEligible, if_neg hy]

/-- When a session fires, the scan increments every old-enough session
before it, leaves young ones untouched, increments the firing session,
emits its event, and — `break` — leaves every later session untouched. -/
theorem silenceScan_fires (wall pos : ℚ) (pre : List (String × Session))
    (sid : String) (s : Session) (post : List (String × Session))
    (hpre : ∀ p ∈ pre, ¬ firesAt pos p) (hf : firesAt pos (sid, s)) :
    silenceScan wall pos (pre ++ (sid, s) :: post) =
      (pre.map (bumpIfEligible pos) ++
        (sid, { s with silence_count := s.silence_count + 1 }) :: post,
        some (mkSilenceEvent wall pos sid)) := by
  induction pre with
  | nil =>
    obtain ⟨he, h50⟩ := hf
    simp only [List.nil_append, List.map_nil, silenceScan,
      if_neg (not_lt.mpr he), if_pos h50]
  | cons p t ih =>
    obtain ⟨sid0, s0⟩ := p
    have ih2 := ih (fun q hq => hpre q (List.mem_cons_of_mem _ hq))
    by_cases hy : pos - s0.wake_word_end < INITIAL_SILENCE_IGNORE
    · simp only [List.cons_append, silenceScan, if_pos hy, List.append_eq, ih2,
        List.map_cons]
      rw [bumpIfEligible, if_pos hy]
    · have hnf := hpre (sid0, s0) (List.mem_cons_self _ _)
      have h50 : ¬ 50 ≤ s0.silence_count + 1 := fun h5 => hnf ⟨not_lt.mp hy, h5⟩
      simp only [List.cons_append, silenceScan, if_neg hy, if_neg h50,
        List.append_eq, ih2, List.map_cons]
      rw [bumpIfEligible, if_neg hy]

/-- C2 amended: on a monitored chunk, a loud chunk resets the silence
counter of every session; on a silent chunk the monitor sweeps the active
sessions in order: every session younger than `INITIAL_SILENCE_IGNORE`
(the boundary `pos - wake_end = 3` already counts as old) is skipped,
every other session has its counter incremented once, and at the first
session whose incremented counter reaches the hard-coded 50 a
`SilenceEvent` (whose `start` is `pos - 5`) is emitted and the sweep
breaks, leaving every later session untouched; if no session reaches 50,
every old-enough session is incremented and no event is emitted; the
configured `SILENCE_DURATION` is never consulted. -/
theorem detect_silence_behaviour (wall pos : ℚ)
    (sessions : List (String × Session)) (chunk : List ℤ) (hch : chunk ≠ []) :
    (SILENCE_THRESHOLD ^ 2 ≤ rmsSq chunk →
      detect_silence wall pos sessions chunk = (resetCounts sessions, none)) ∧
    (rmsSq chunk < SILENCE_THRESHOLD ^ 2 → sessions ≠ [] →
      ((∀ p ∈ sessions, ¬ firesAt pos p) →
        detect_silence wall pos sessions chunk =
          (sessions.map (bumpIfEligible pos), none)) ∧
      (∀ (pre : List (String × Session)) (sid : String) (s : Session)
          (post : List (String × Session)),
        sessions = pre ++ (sid, s) :: post →
        (∀ p ∈ pre, ¬ firesAt pos p) → firesAt pos (sid, s) →
        detect_silence wall pos sessions chunk =
          (pre.map (bumpIfEligible pos) ++
            (sid, { s with silence_count := s.silence_count + 1 }) :: post,
            some (mkSilenceEvent wall pos sid)))) := by
  have hlen : chunk.length ≠ 0 := by
    simpa [List.length_eq_zero] using hch
  refine ⟨fun hloud => ?_, fun hsilent hne =>
    ⟨fun hnf => ?_, fun pre sid s post hsplit hpre hf => ?_⟩⟩
  · simp only [detect_silence, if_neg hlen]
    rw [if_neg]
    rintro ⟨-, hlt⟩
    exact absurd hloud (not_le.mpr hlt)
  · simp only [detect_silence, if_neg hlen]
    rw [if_pos ⟨List.length_pos.mpr hne, hsilent⟩]
    exact silenceScan_no_fire wall pos sessions hnf
  · simp only [detect_silence, if_neg hlen]
    rw [if_pos ⟨List.length_pos.mpr hne, hsilent⟩, hsplit]
    exact silenceScan_fires wall pos pre sid s post hpre hf

/-- Witness for the C2 amended theorem: on a silent chunk with three
sessions — a young one (age 2 s, skipped), one at counter 49 (fires at 50)
and a later one at counter 7 — the sweep leaves the young session alone,
raises the second to 50 and emits its event, and the break leaves the
third untouched; and a loud chunk (constant 1000) resets a counter. -/
theorem detect_silence_behaviour_witness :
    detect_silence 1000 10
        [("y", Session.mk (-(3 / 2)) 8 999 [] 3),
          ("a", Session.mk (-(3 / 2)) 0 998 [] 49),
          ("b", Session.mk (-(3 / 2)) 0 997 [] 7)]
        (List.replicate 512 0) =
      ([("y", Session.mk (-(3 / 2)) 8 999 [] 3),
          ("a", Session.mk (-(3 / 2)) 0 998 [] 50),
          ("b", Session.mk (-(3 / 2)) 0 997 [] 7)],
        some (mkSilenceEvent 1000 10 "a")) ∧
    detect_silence 1000 10 [("s1", Session.mk (-(3 / 2)) 0 999 [] 7)]
        (List.replicate 512 1000) =
      ([("s1", Session.mk (-(3 / 2)) 0 999 [] 0)], none) := by
  constructor
  · have hch : (List.replicate 512 (0 : ℤ)) ≠ [] :=
      List.ne_nil_of_length_pos (by rw [List.length_replicate]; norm_num)
    have hsilent : rmsSq (List.replicate 512 0) < SILENCE_THRESHOLD ^ 2 := by
      norm_num [rmsSq, SILENCE_THRESHOLD, List.map_replicate, List.sum_replicate]
    have hpre : ∀ p ∈ [("y", Session.mk (-(3 / 2) : ℚ) 8 999 [] 3)],
        ¬ firesAt 10 p := by
      intro p hp
      rw [List.mem_singleton] at hp
      subst hp
      rintro ⟨h1, -⟩
      norm_num [INITIAL_SILENCE_IGNORE] at h1
    have hf : firesAt 10 ("a", Session.mk (-(3 / 2) : ℚ) 0 998 [] 49) :=
      ⟨by norm_num [INITIAL_SILENCE_IGNORE], by norm_num⟩
    have H := ((detect_silence_behaviour 1000 10
        [("y", Session.mk (-(3 / 2)) 8 999 [] 3),
          ("a", Session.mk (-(3 / 2)) 0 998 [] 49),
          ("b", Session.mk (-(3 / 2)) 0 997 [] 7)]
        (List.replicate 512 0) hch).2 hsilent (by simp)).2
      [("y", Session.mk (-(3 / 2)) 8 999 [] 3)] "a"
      (Session.mk (-(3 / 2)) 0 998 [] 49)
      [("b", Session.mk (-(3 / 2)) 0 997 [] 7)] rfl hpre hf
    rw [H]
    norm_num [bumpIfEligible, INITIAL_SILENCE_IGNORE]
  · have hloud : SILENCE_THRESHOLD ^ 2 ≤ rmsSq (List.replicate 512 1000) := by
      norm_num [rmsSq, SILENCE_THRESHOLD, List.map_replicate, List.sum_replicate]
    have H := (detect_silence_behaviour 1000 10
      [("s1", Session.mk (-(3 / 2)) 0 999 [] 7)] (List.replicate 512 1000)
      (List.ne_nil_of_length_pos (by rw [List.length_replicate]; norm_num))).1 hloud
    rw [H]
    simp [resetCounts]

/-- C2 counterexample: with a concrete session whose counter stands at 49
and a silent chunk (all zeros, RMS 0), the code emits a `SilenceEvent` at
the 50th monitored silent chunk, although `50 × (512 / 16000) = 1.6 s`,
which has not reached `SILENCE_DURATION = 2 s`; the claimed trigger
`counter × chunk duration ≥ SILENCE_DURATION` would fire only at count 63. -/
theorem silence_event_at_count_50 :
    detect_silence 1000 10 [("s1", Session.mk (-(3 / 2)) 0 999 [] 49)]
        (List.replicate 512 0) =
      ([("s1", Session.mk (-(3 / 2)) 0 999 [] 50)], some (mkSilenceEvent 1000 10 "s1")) ∧
    (50 : ℚ) * ((512 : ℚ) / 16000) < SILENCE_DURATION := by
  constructor
  · have hsilent : rmsSq (List.replicate 512 0) < SILENCE_THRESHOLD ^ 2 := by
      norm_num [rmsSq, SILENCE_THRESHOLD, List.map_replicate, List.sum_replicate]
    simp only [detect_silence, List.length_replicate]
    rw [if_neg (by norm_num), if_pos ⟨by norm_num, hsilent⟩]
    norm_num [silenceScan, INITIAL_SILENCE_IGNORE]
  · norm_num [SILENCE_DURATION]

/-! ## Event processor, transcribe worker and finalization
(event_driven_v3.py lines 251-500) -/

/-- The result of `whisper_processor.transcribe`; `none` models a falsy
`result`. -/
structure AsrResult where
  text : String
  duration : ℚ
  processing_time_ms : ℚ
deriving DecidableEq

/-- The external ASR engine as an oracle over the PCM segment. -/
def Asr : Type := List ℤ → Option AsrResult

/-- An entry of `transcription_results[sid][level]` (lines 359-364). -/
structure ResultEntry where
  text : String
  timestamp : ℚ
  duration : ℚ
  processing_time_ms : ℚ
deriving DecidableEq

/-- An entry of `transcription_history[sid]`. -/
structure HistEntry where
  texts : List String
  no_change_count : ℕ
deriving DecidableEq

/-- One `log_json` record (wall time and free metadata dropped). -/
inductive LogEvent
  | session_start (session_id wake_word : String)
  | session_end (session_id : String) (all_levels : List (String × String))
  | transcription_start (session_id level : String) (duration : ℚ)
  | transcription_result (session_id level text : String) (duration : ℚ) (ms : ℚ)
  | transcription_unchanged (session_id : String) (no_change_count : ℕ) (text : String)
  | transcription_changed (session_id new_content : String)
  | session_end_by_repetition (session_id final_text : String)
  | error (worker : String)
deriving DecidableEq

/-- The mutable state of `EventDrivenVoiceAssistantV3` that the claims
touch (queues for the two worker loops are traces fed explicitly). -/
structure SysState where
  buffer : RingBuffer
  chunks_processed : ℕ
  active_sessions : List (String × Session)
  transcription_results : List (String × List (String × ResultEntry))
  transcription_history : List (String × HistEntry)
  event_queue : List AudioEvent

/-- Python-level exceptions (caught by the worker loops). -/
inductive PyError
  | ndarrayAmbiguous
deriving DecidableEq

/-- Python `bool()` of the `Optional[ndarray]` in `if audio_segment and ...`
(finalize_session line 394): `None` and a size-0 array are falsy, a
1-element array has the truth value of its element, and an array of 2 or
more elements raises `ValueError` (ambiguous truth value). -/
def numpyTruthy : Option (List ℤ) → Except PyError Bool
  | none => .ok false
  | some [] => .ok false
  | some [x] => .ok (x != 0)
  | some (_ :: _ :: _) => .error .ndarrayAmbiguous

/-- Python `session_id = f"session_" + str(int(event.timestamp * 1000))` (line 261). -/
def sessionIdOf (ev : AudioEvent) : String :=
  "session_" ++ toString (pyInt (ev.timestamp * 1000))

/-- The session record created at lines 262-266. -/
def sessionOfWake (ev : AudioEvent) : Session :=
  ⟨ev.start, ev.end_, ev.timestamp, [], 0⟩

/-- Python `finalize_session` (lines 382-446).  The range is
`[wake_end, get_stream_position() - 2.0]` computed at finalization time;
the level name is `"ultra"`; the database insert is out of scope.  The
truthiness test at line 394 raises whenever the extracted segment has two
or more samples. -/
def finalize_session (asr : Asr) (st : SysState) (sid : String) :
    Except PyError (SysState × List LogEvent) :=
  match st.active_sessions.lookup sid with
  | none => .ok (st, [])
  | some s =>
    let wake_end := s.wake_word_end
    let pos := streamPos st.buffer
    let seg := extract_audio_segment st.buffer wake_end (pos - 2)
    match numpyTruthy seg with
    | .error e => .error e
    | .ok truthy =>
      let big := truthy && (match seg with
        | some a => decide (SAMPLE_RATE * (1 / 2) < (a.length : ℚ))
        | none => false)
      let tevs : List LogEvent :=
        if big then
          match seg with
          | some a =>
            LogEvent.transcription_start sid "ultra" (pos - 2 - wake_end) ::
            (match asr a with
              | some r => [LogEvent.transcription_result sid "ultra" r.text
                  r.duration r.processing_time_ms]
              | none => [])
          | none => []
        else []
      let summary := ((st.transcription_results.lookup sid).getD []).map
        (fun p => (p.1, p.2.text))
      .ok ({ st with
          active_sessions := assocErase st.active_sessions sid,
          transcription_results := assocErase st.transcription_results sid,
          transcription_history := assocErase st.transcription_history sid },
        tevs ++ [LogEvent.session_end sid summary])

/-- One iteration of `event_processor_worker` (lines 251-284) on a dequeued
event; a raising `finalize_session` is caught by the generic handler of
the worker loop, which logs an `error` record and leaves all state unchanged. -/
def processEvent (asr : Asr) (st : SysState) (ev : AudioEvent) :
    SysState × List LogEvent :=
  match ev.event_type with
  | .wake_word =>
    let sid := sessionIdOf ev
    ({ st with
        active_sessions := assocSet st.active_sessions sid (sessionOfWake ev),
        transcription_results := assocSet st.transcription_results sid [],
        transcription_history := assocSet st.transcription_history sid ⟨[], 0⟩ },
      [LogEvent.session_start sid ev.wake_word])
  | .silence =>
    if (st.active_sessions.lookup ev.session_id).isSome then
      match finalize_session asr st ev.session_id with
      | .ok r => r
      | .error _ => (st, [LogEvent.error "event_processor"])
    else (st, [])

/-- Run the event processor over a queue of events, collecting the emitted
records in order. -/
def processEvents (asr : Asr) (st : SysState) :
    List AudioEvent → SysState × List LogEvent
  | [] => (st, [])
  | ev :: rest =>
    let r := processEvent asr st ev
    let r2 := processEvents asr r.1 rest
    (r2.1, r.2 ++ r2.2)

/-- Python `text.strip().replace(" ", "").replace("、", "").replace("。", "")`. -/
def normalizeText (t : String) : String :=
  ((t.trim.replace " " "").replace "、" "").replace "。" ""

/-- Python `needle in hay` on strings. -/
def strContains (hay needle : String) : Bool :=
  (List.range (hay.data.length + 1)).any
    (fun i => needle.data.isPrefixOf (hay.data.drop i))

/-- Python `check_transcription_change` (lines 448-500): returns the updated
history, the emitted records, and the optional repetition-finalization
event enqueued to the event queue (a `silence`-typed event with
`start = pos - 2.0`). -/
def check_transcription_change (wall pos : ℚ) (hist : List (String × HistEntry))
    (sid text : String) :
    List (String × HistEntry) × List LogEvent × Option AudioEvent :=
  match hist.lookup sid with
  | none => (hist, [], none)
  | some h =>
    let norm := normalizeText text
    match h.texts.getLast? with
    | none => (assocSet hist sid ⟨h.texts ++ [text], h.no_change_count⟩, [], none)
    | some lastT =>
      let lastN := normalizeText lastT
      if norm = lastN ∨ strContains norm lastN then
        let h2 : HistEntry := ⟨h.texts, h.no_change_count + 1⟩
        if 3 ≤ h2.no_change_count then
          (assocSet hist sid h2,
            [LogEvent.transcription_unchanged sid h2.no_change_count text,
              LogEvent.session_end_by_repetition sid text],
            some ⟨wall, pos, .silence, pos - 2, pos, "", "", sid⟩)
        else
          (assocSet hist sid h2,
            [LogEvent.transcription_unchanged sid h2.no_change_count text], none)
      else
        (assocSet hist sid ⟨h.texts ++ [text], 0⟩,
          [LogEvent.transcription_changed sid text], none)

/-- One iteration of `transcribe_worker` (lines 330-380) on a dequeued
request.  A request whose segment is absent or shorter than
`SAMPLE_RATE * 0.5` samples is skipped with no record and no state change;
a `KeyError` on a vanished `transcription_results` entry is caught by the
worker handler (an `error` record after the already-logged
`transcription_start`). -/
def transcribe_worker_step (asr : Asr) (wall : ℚ) (st : SysState)
    (req : TranscribeRequest) : SysState × List LogEvent :=
  match extract_audio_segment st.buffer req.start req.end_ with
  | none => (st, [])
  | some a =>
    if (a.length : ℚ) < SAMPLE_RATE * (1 / 2) then (st, [])
    else
      let ev0 := LogEvent.transcription_start req.session_id req.level
        (req.end_ - req.start)
      match asr a with
      | none => (st, [ev0])
      | some r =>
        if r.text = "" then (st, [ev0])
        else
          match st.transcription_results.lookup req.session_id with
          | none => (st, [ev0, LogEvent.error "transcribe"])
          | some m =>
            let entry : ResultEntry := ⟨r.text, req.timestamp, r.duration,
              r.processing_time_ms⟩
            let c := check_transcription_change wall (streamPos st.buffer)
              st.transcription_history req.session_id r.text
            ({ st with
                transcription_results := assocSet st.transcription_results
                  req.session_id (assocSet m req.level entry),
                transcription_history := c.1,
                event_queue := st.event_queue ++ c.2.2.toList },
              [ev0, LogEvent.transcription_result req.session_id req.level r.text
                r.duration r.processing_time_ms] ++ c.2.1)

/-- An ASR oracle that never returns a result (sufficient for the concrete
runs below, which never reach the ASR call). -/
def asrNone : Asr := fun _ => none

/-- The initial state after `__init__`. -/
def emptyState : SysState := ⟨⟨[], 0⟩, 0, [], [], [], []⟩

/-! ## The numpy truthiness crash in finalize_session (C1, C9) -/

/-- A state with ~2 s of buffered audio and one active session whose wake
word ended at stream time 0: the typical input of a silence finalization. -/
def crashState : SysState :=
  ⟨⟨7 :: 7 :: List.replicate 32000 0, 32002⟩, 0,
    [("s1", Session.mk (-(3 / 2)) 0 1000 [] 0)],
    [("s1", [])], [("s1", ⟨[], 0⟩)], []⟩

theorem crashState_lookup :
    crashState.active_sessions.lookup "s1" = some (Session.mk (-(3 / 2)) 0 1000 [] 0) := by
  show List.lookup "s1" [("s1", Session.mk (-(3 / 2)) 0 1000 [] 0)] =
    some (Session.mk (-(3 / 2)) 0 1000 [] 0)
  simp [List.lookup]

theorem crashState_extract :
    extract_audio_segment crashState.buffer 0 (streamPos crashState.buffer - 2) =
      some [7, 7] := by
  have hlen : crashState.buffer.data.length = 32002 := by
    show (7 :: 7 :: List.replicate 32000 0).length = 32002
    rw [List.length_cons, List.length_cons, List.length_replicate]
  have htot : crashState.buffer.total_samples = 32002 := rfl
  have hpos : streamPos crashState.buffer = 32002 / 16000 := by
    rw [streamPos, htot]
    norm_num [SAMPLE_RATE]
  have hbst : bufferStart crashState.buffer = 0 := by
    rw [bufferStart, hpos, hlen]
    norm_num [SAMPLE_RATE]
  have hss : startSampleOf crashState.buffer 0 = 0 := by
    rw [startSampleOf, hbst]
    norm_num [SAMPLE_RATE, pyInt]
  have hes : endSampleOf crashState.buffer (streamPos crashState.buffer - 2) = 2 := by
    rw [endSampleOf, hbst, hpos, hlen]
    norm_num [SAMPLE_RATE, pyInt]
  simp only [extract_audio_segment, hss, hes, hlen]
  norm_num
  rfl

/-- Finalizing with an extracted segment of two or more samples raises at
the truthiness test of line 394. -/
theorem finalize_session_of_multi (asr : Asr) (st : SysState) (sid : String)
    (s : Session) (x y : ℤ) (rest : List ℤ)
    (hlk : st.active_sessions.lookup sid = some s)
    (hseg : extract_audio_segment st.buffer s.wake_word_end (streamPos st.buffer - 2) =
      some (x :: y :: rest)) :
    finalize_session asr st sid = .error .ndarrayAmbiguous := by
  simp only [finalize_session, hlk, hseg]
  rfl

/-- A raising `finalize_session` is caught: one `error` record, state kept. -/
theorem processEvent_silence_error (asr : Asr) (st : SysState) (ev : AudioEvent)
    (hty : ev.event_type = .silence)
    (hlk : (st.active_sessions.lookup ev.session_id).isSome = true)
    (e : PyError) (herr : finalize_session asr st ev.session_id = .error e) :
    processEvent asr st ev = (st, [LogEvent.error "event_processor"]) := by
  simp only [processEvent, hty, hlk, herr, if_true]

/-- Finalizing with an absent segment skips the transcription but still
removes the session and emits `session_end`. -/
theorem finalize_session_of_none (asr : Asr) (st : SysState) (sid : String)
    (s : Session) (hlk : st.active_sessions.lookup sid = some s)
    (hnone : extract_audio_segment st.buffer s.wake_word_end (streamPos st.buffer - 2) =
      none) :
    finalize_session asr st sid = .ok
      ({ st with
          active_sessions := assocErase st.active_sessions sid,
          transcription_results := assocErase st.transcription_results sid,
          transcription_history := assocErase st.transcription_history sid },
        [LogEvent.session_end sid
          (((st.transcription_results.lookup sid).getD []).map
            (fun p => (p.1, p.2.text)))]) := by
  simp only [finalize_session, hlk, hnone]
  rfl

/-- A successful `finalize_session` result is returned as is. -/
theorem processEvent_silence_ok (asr : Asr) (st : SysState) (ev : AudioEvent)
    (hty : ev.event_type = .silence)
    (hlk : (st.active_sessions.lookup ev.session_id).isSome = true)
    (r : SysState × List LogEvent)
    (hok : finalize_session asr st ev.session_id = .ok r) :
    processEvent asr st ev = r := by
  simp only [processEvent, hty, hlk, hok, if_true]

theorem crashState_finalize :
    finalize_session asrNone crashState "s1" = .error .ndarrayAmbiguous :=
  finalize_session_of_multi asrNone crashState "s1" (Session.mk (-(3 / 2)) 0 1000 [] 0)
    7 7 (List.nil) crashState_lookup crashState_extract

theorem crashState_processEvent (w : ℚ) :
    processEvent asrNone crashState (mkSilenceEvent w (streamPos crashState.buffer) "s1") =
      (crashState, [LogEvent.error "event_processor"]) := by
  refine processEvent_silence_error asrNone crashState _ rfl ?_ .ndarrayAmbiguous ?_
  · rw [show (mkSilenceEvent w (streamPos crashState.buffer) "s1").session_id = "s1"
      from rfl, crashState_lookup]
    rfl
  · rw [show (mkSilenceEvent w (streamPos crashState.buffer) "s1").session_id = "s1"
      from rfl]
    exact crashState_finalize

/-- C1: on a silence finalization whose extracted segment holds two or more
samples (any session with ≥ 2 s of retained audio), the line-394 test
`if audio_segment and len(audio_segment) > ...` raises `ValueError` (numpy
array truthiness); the event processor catches it and logs an `error`
record, so no `final` transcription and no `session_end` are produced and
the session stays active.  Moreover the range the code would transcribe is
`[wake_end, pos - SILENCE_DURATION]` at finalization time, which differs
from the triggering `SilenceEvent.start` (set to detection position - 5.0). -/
theorem finalize_session_raises :
    extract_audio_segment crashState.buffer 0 (streamPos crashState.buffer - 2) =
      some [7, 7] ∧
    finalize_session asrNone crashState "s1" = .error .ndarrayAmbiguous ∧
    processEvent asrNone crashState
        (mkSilenceEvent 1010 (streamPos crashState.buffer) "s1") =
      (crashState, [LogEvent.error "event_processor"]) ∧
    streamPos crashState.buffer - SILENCE_DURATION ≠
      (mkSilenceEvent 1010 (streamPos crashState.buffer) "s1").start := by
  refine ⟨crashState_extract, crashState_finalize, crashState_processEvent 1010, ?_⟩
  norm_num [mkSilenceEvent, SILENCE_DURATION]

/-- C9: both a silence trigger and a repetition trigger for the same
session reach the event processor as `silence`-typed events; here neither
of two consecutive triggers emits a `session_end` — each one raises in
`finalize_session` (ndarray truthiness) and only logs an `error` — so the
session emits zero `session_end` records, not exactly one, and it stays
active after both triggers. -/
theorem two_triggers_zero_session_end :
    processEvents asrNone crashState
        [mkSilenceEvent 1010 (streamPos crashState.buffer) "s1",
          mkSilenceEvent 1011 (streamPos crashState.buffer) "s1"] =
      (crashState, [LogEvent.error "event_processor", LogEvent.error "event_processor"]) := by
  simp [processEvents, crashState_processEvent]

/-! ## Session-id collisions (C8) -/

/-- Two distinct wake-word detections inside the same wall-clock
millisecond. -/
def wakeA : AudioEvent := ⟨1000 + 1 / 10000, 0, .wake_word, -(3 / 2), 0, "jarvis", "builtin", ""⟩

def wakeB : AudioEvent := ⟨1000 + 9 / 10000, 0, .wake_word, -(3 / 2), 0, "alexa", "builtin", ""⟩

/-- C8 counterexample: two distinct wake-word events whose wall-clock
timestamps fall in the same millisecond produce the same
`session_id = session_⌊t·1000⌋`, and the second session replaces the first
in `active_sessions` instead of being tracked in parallel. -/
theorem same_millisecond_wake_words_collide :
    wakeA ≠ wakeB ∧
    sessionIdOf wakeA = sessionIdOf wakeB ∧
    (processEvents asrNone emptyState [wakeA, wakeB]).1.active_sessions =
      [(sessionIdOf wakeB, sessionOfWake wakeB)] ∧
    sessionOfWake wakeA ≠ sessionOfWake wakeB := by
  have hid : sessionIdOf wakeA = sessionIdOf wakeB := by
    have hp : pyInt (wakeA.timestamp * 1000) = pyInt (wakeB.timestamp * 1000) := by
      norm_num [wakeA, wakeB, pyInt]
    simp [sessionIdOf, hp]
  refine ⟨?_, hid, ?_, ?_⟩
  · simp [wakeA, wakeB]
  · simp only [processEvents, processEvent, wakeA, wakeB] at hid ⊢
    simp only [hid]
    simp [assocSet, emptyState]
  · simp [sessionOfWake, wakeA, wakeB, Session.mk.injEq]
    norm_num

/-- C8 amended: session ids are `session_⌊t·1000⌋` from the wall-clock
time of the event; whenever the derived ids differ (equivalently, the two
timestamps fall in different milliseconds), a second wake word adds an
additional, independently tracked session and leaves the entry of the
first session intact.  Wake words inside the same millisecond collide (see the
counterexample). -/
theorem distinct_wake_events_add_sessions (asr : Asr) (st : SysState)
    (ev1 ev2 : AudioEvent) (h1 : ev1.event_type = .wake_word)
    (h2 : ev2.event_type = .wake_word)
    (hne : sessionIdOf ev1 ≠ sessionIdOf ev2) :
    (processEvents asr st [ev1, ev2]).1.active_sessions.lookup (sessionIdOf ev1) =
        some (sessionOfWake ev1) ∧
    (processEvents asr st [ev1, ev2]).1.active_sessions.lookup (sessionIdOf ev2) =
      some (sessionOfWake ev2) := by
  simp only [processEvents, processEvent, h1, h2]
  constructor
  · rw [lookup_assocSet_ne _ _ _ _ hne, lookup_assocSet_self]
  · rw [lookup_assocSet_self]

/-- Witness for the C8 amended theorem: wake words at wall times 1 s and
2 s get the ids `session_1000` and `session_2000` and both sessions are
tracked. -/
theorem distinct_wake_events_add_sessions_witness :
    (processEvents asrNone emptyState
        [⟨1, 0, .wake_word, -(3 / 2), 0, "jarvis", "builtin", ""⟩,
          ⟨2, 5, .wake_word, 7 / 2, 5, "alexa", "builtin", ""⟩]).1.active_sessions.lookup
        (sessionIdOf ⟨1, 0, .wake_word, -(3 / 2), 0, "jarvis", "builtin", ""⟩) =
      some (sessionOfWake ⟨1, 0, .wake_word, -(3 / 2), 0, "jarvis", "builtin", ""⟩) ∧
    (processEvents asrNone emptyState
        [⟨1, 0, .wake_word, -(3 / 2), 0, "jarvis", "builtin", ""⟩,
          ⟨2, 5, .wake_word, 7 / 2, 5, "alexa", "builtin", ""⟩]).1.active_sessions.lookup
        (sessionIdOf ⟨2, 5, .wake_word, 7 / 2, 5, "alexa", "builtin", ""⟩) =
      some (sessionOfWake ⟨2, 5, .wake_word, 7 / 2, 5, "alexa", "builtin", ""⟩) := by
  have hne : sessionIdOf ⟨1, 0, .wake_word, -(3 / 2), 0, "jarvis", "builtin", ""⟩ ≠
      sessionIdOf ⟨2, 5, .wake_word, 7 / 2, 5, "alexa", "builtin", ""⟩ := by
    have ha : pyInt ((⟨1, 0, .wake_word, -(3 / 2), 0, "jarvis", "builtin", ""⟩ :
        AudioEvent).timestamp * 1000) = 1000 := by
      norm_num [pyInt]
    have hb : pyInt ((⟨2, 5, .wake_word, 7 / 2, 5, "alexa", "builtin", ""⟩ :
        AudioEvent).timestamp * 1000) = 2000 := by
      norm_num [pyInt]
    simp only [sessionIdOf, ha, hb]
    decide
  exact distinct_wake_events_add_sessions asrNone emptyState _ _ rfl rfl hne

/-! ## Short or absent segments (C10) -/

/-- C10 amended: a queued `short`/`medium`/`long` request whose extracted
PCM is absent or shorter than `SAMPLE_RATE × 0.5` samples is skipped
silently — no record of any kind, no state change.  In `finalize_session`,
an absent segment likewise skips the `final` transcription silently, but
the session still ends: `session_end` is emitted and the session is
removed from `active_sessions` (it does not remain active). -/
theorem skip_short_segments (asr : Asr) (wall : ℚ) (st : SysState)
    (req : TranscribeRequest) (sid : String) (s : Session) :
    ((extract_audio_segment st.buffer req.start req.end_ = none ∨
        (∃ a, extract_audio_segment st.buffer req.start req.end_ = some a ∧
          (a.length : ℚ) < SAMPLE_RATE * (1 / 2))) →
      transcribe_worker_step asr wall st req = (st, [])) ∧
    (st.active_sessions.lookup sid = some s →
      extract_audio_segment st.buffer s.wake_word_end (streamPos st.buffer - 2) = none →
      finalize_session asr st sid = .ok
        ({ st with
            active_sessions := assocErase st.active_sessions sid,
            transcription_results := assocErase st.transcription_results sid,
            transcription_history := assocErase st.transcription_history sid },
          [LogEvent.session_end sid
            (((st.transcription_results.lookup sid).getD []).map
              (fun p => (p.1, p.2.text)))])) := by
  constructor
  · rintro (hnone | ⟨a, ha, hlt⟩)
    · simp [transcribe_worker_step, hnone]
    · simp only [transcribe_worker_step, ha]
      rw [if_pos hlt]
  · intro hlk hnone
    simp only [finalize_session, hlk, hnone]
    rfl

/-- A state with an empty buffer and one active session: every extraction
is absent. -/
def absentSegState : SysState :=
  ⟨⟨[], 0⟩, 0, [("s1", Session.mk (-(3 / 2)) 0 1000 [] 0)], [("s1", [])],
    [("s1", ⟨[], 0⟩)], []⟩

theorem absentSegState_lookup :
    absentSegState.active_sessions.lookup "s1" =
      some (Session.mk (-(3 / 2)) 0 1000 [] 0) := by
  show List.lookup "s1" [("s1", Session.mk (-(3 / 2)) 0 1000 [] 0)] =
    some (Session.mk (-(3 / 2)) 0 1000 [] 0)
  simp [List.lookup]

theorem absentSegState_extract :
    extract_audio_segment absentSegState.buffer 0
      (streamPos absentSegState.buffer - 2) = none := by
  show extract_audio_segment ⟨[], 0⟩ 0 (streamPos ⟨[], 0⟩ - 2) = none
  simp [extract_audio_segment]

/-- Witness for the C10 amended theorem: an empty buffer makes both the
worker skip and the final-skip-with-session-end concrete. -/
theorem skip_short_segments_witness :
    transcribe_worker_step asrNone 1000 absentSegState ⟨"s1", "short", 0, 3, 999⟩ =
      (absentSegState, []) ∧
    finalize_session asrNone absentSegState "s1" =
      .ok ({ absentSegState with
          active_sessions := assocErase absentSegState.active_sessions "s1",
          transcription_results := assocErase absentSegState.transcription_results "s1",
          transcription_history := assocErase absentSegState.transcription_history "s1" },
        [LogEvent.session_end "s1"
          (((absentSegState.transcription_results.lookup "s1").getD []).map
            (fun p => (p.1, p.2.text)))]) := by
  have H := skip_short_segments asrNone 1000 absentSegState ⟨"s1", "short", 0, 3, 999⟩
    "s1" (Session.mk (-(3 / 2)) 0 1000 [] 0)
  exact ⟨H.1 (Or.inl absentSegState_extract), H.2 absentSegState_lookup absentSegState_extract⟩

/-- C10 counterexample: a finalization whose extracted PCM is absent is
indeed skipped silently (no `transcription_start`, no `error`), but the
claimed "the session otherwise remains active" fails: `session_end` is
emitted and the session is removed. -/
theorem final_skip_still_ends_session :
    processEvent asrNone absentSegState (mkSilenceEvent 1005 0 "s1") =
      (⟨⟨[], 0⟩, 0, [], [], [], []⟩, [LogEvent.session_end "s1" []]) := by
  have hfin := finalize_session_of_none asrNone absentSegState "s1"
    (Session.mk (-(3 / 2)) 0 1000 [] 0) absentSegState_lookup absentSegState_extract
  have hp := processEvent_silence_ok asrNone absentSegState (mkSilenceEvent 1005 0 "s1")
    rfl (by rw [show (mkSilenceEvent 1005 0 "s1").session_id = "s1" from rfl,
      absentSegState_lookup]; rfl) _ hfin
  rw [hp]
  simp [absentSegState, assocErase, List.lookup]

/-! ## The transcription request queue (C3) -/

/-- Python `self.transcribe_queue = queue.Queue()` (event_driven_v3.py line 70):
constructed without `maxsize`, the queue is unbounded; `put` appends and
never drops or reports anything. -/
def queuePut (q : List TranscribeRequest) (r : TranscribeRequest) :
    List TranscribeRequest := q ++ [r]

/-- A sequence of `put` calls. -/
def queuePutAll (q : List TranscribeRequest) (rs : List TranscribeRequest) :
    List TranscribeRequest := rs.foldl queuePut q

/-- C3 amended: the transcription request queue is an unbounded FIFO —
every submission is appended in order, nothing is ever dropped regardless
of the number of pending requests, and no overflow `error` event exists in
the code. -/
theorem transcribe_queue_unbounded (q rs : List TranscribeRequest) :
    queuePutAll q rs = q ++ rs ∧
    (queuePutAll q rs).length = q.length + rs.length := by
  have h : ∀ q2 : List TranscribeRequest, queuePutAll q2 rs = q2 ++ rs := by
    induction rs with
    | nil => intro q2; simp [queuePutAll]
    | cons r t ih =>
      intro q2
      simp only [queuePutAll, List.foldl_cons] at ih ⊢
      rw [show queuePut q2 r = q2 ++ [r] from rfl, ih]
      simp
  refine ⟨h q, ?_⟩
  rw [h q]
  simp

/-- C3 counterexample: nine consecutive submissions leave nine pending
requests — more than the claimed capacity of about 8 — none dropped and no
`error` emitted (`queuePut` produces no events at all). -/
theorem queue_not_bounded_by_8 :
    (queuePutAll [] (List.replicate 9 ⟨"s", "short", 0, 3, 0⟩)).length = 9 ∧
    8 < 9 := by
  constructor
  · decide
  · norm_num

/-! ## Session lifetime: no hard cap in event_driven_v3, a 30 s wall-clock
cap in continuous_main (C4) -/

/-- The `deque(maxlen = buffer_duration * SAMPLE_RATE)` capacity in samples. -/
def BUFFER_CAPACITY : ℕ := 300 * 16000

def takeLast {α : Type} (n : ℕ) (l : List α) : List α :=
  if l.length ≤ n then l else l.drop (l.length - n)

/-- Python `audio_buffer.extend(chunk)` plus `total_samples += len(chunk)`
(lines 167-169). -/
def appendChunk (b : RingBuffer) (chunk : List ℤ) : RingBuffer :=
  ⟨takeLast BUFFER_CAPACITY (b.data ++ chunk), b.total_samples + chunk.length⟩

/-- One iteration of `audio_buffer_worker` (lines 160-175): append the
chunk, bump the counter, and run `detect_silence` on every 10th chunk. -/
def audio_buffer_step (wall : ℚ) (st : SysState) (chunk : List ℤ) :
    SysState × Option AudioEvent :=
  let b2 := appendChunk st.buffer chunk
  let n := st.chunks_processed + 1
  if n % 10 = 0 then
    let r := detect_silence wall (streamPos b2) st.active_sessions chunk
    ({ st with buffer := b2, chunks_processed := n, active_sessions := r.1 }, r.2)
  else
    ({ st with buffer := b2, chunks_processed := n }, none)

/-- A loud chunk: constant amplitude 1000, RMS 1000 ≥ SILENCE_THRESHOLD. -/
def loudChunk : List ℤ := List.replicate 512 1000

/-- Feed `n` loud chunks through the buffer worker, collecting any silence
events. -/
def runLoudChunks (wall : ℚ) (st : SysState) : ℕ → SysState × List AudioEvent
  | 0 => (st, [])
  | n + 1 =>
    let r := audio_buffer_step wall st loudChunk
    let r2 := runLoudChunks wall r.1 n
    (r2.1, r.2.toList ++ r2.2)

theorem rmsSq_loudChunk : rmsSq loudChunk = 1000000 := by
  rw [rmsSq, loudChunk, List.map_replicate, List.sum_replicate, List.length_replicate]
  norm_num

theorem reset_zero_count (s : Session) (hc : s.silence_count = 0) :
    ({ s with silence_count := 0 } : Session) = s := by
  cases s
  simp_all

theorem detect_silence_noisy (wall : ℚ) (sid : String) (s : Session)
    (hc : s.silence_count = 0) (chunk : List ℤ) (hne : chunk.length ≠ 0)
    (hloud : SILENCE_THRESHOLD ^ 2 ≤ rmsSq chunk) (st : SysState)
    (hsess : st.active_sessions = [(sid, s)]) (pos : ℚ) :
    detect_silence wall pos st.active_sessions chunk = (st.active_sessions, none) := by
  rw [detect_silence]
  rw [if_neg hne]
  rw [if_neg ?_]
  · rw [hsess]
    show (resetCounts [(sid, s)], none) = ([(sid, s)], none)
    simp [resetCounts, reset_zero_count s hc]
  · rintro ⟨-, hlt⟩
    exact absurd hloud (not_le.mpr hlt)

theorem audio_buffer_step_noisy (wall : ℚ) (sid : String) (s : Session)
    (hc : s.silence_count = 0) (chunk : List ℤ) (hne : chunk.length ≠ 0)
    (hloud : SILENCE_THRESHOLD ^ 2 ≤ rmsSq chunk) (st : SysState)
    (hsess : st.active_sessions = [(sid, s)]) :
    audio_buffer_step wall st chunk =
      ({ st with
          buffer := appendChunk st.buffer chunk
          chunks_processed := st.chunks_processed + 1 }, none) := by
  have hds : ∀ pos : ℚ, detect_silence wall pos st.active_sessions chunk =
      (st.active_sessions, none) :=
    fun pos => detect_silence_noisy wall sid s hc chunk hne hloud st hsess pos
  simp only [audio_buffer_step, hds]
  split_ifs <;> rfl

theorem runLoudChunks_invariant (wall : ℚ) (sid : String) (s : Session)
    (hc : s.silence_count = 0) (n : ℕ) :
    ∀ st : SysState, st.active_sessions = [(sid, s)] →
      (runLoudChunks wall st n).1.active_sessions = [(sid, s)] ∧
      (runLoudChunks wall st n).2 = [] ∧
      (runLoudChunks wall st n).1.buffer.total_samples =
        st.buffer.total_samples + n * 512 := by
  induction n with
  | zero =>
    intro st h
    simpa [runLoudChunks] using h
  | succ k ih =>
    intro st h
    have hstep := audio_buffer_step_noisy wall sid s hc loudChunk
      (by rw [loudChunk, List.length_replicate]; norm_num)
      (by rw [rmsSq_loudChunk]; norm_num [SILENCE_THRESHOLD]) st h
    have hsess2 : (audio_buffer_step wall st loudChunk).1.active_sessions = [(sid, s)] := by
      rw [hstep]
      exact h
    have ih2 := ih _ hsess2
    simp only [runLoudChunks]
    refine ⟨ih2.1, ?_, ?_⟩
    · rw [ih2.2.1, hstep]
      rfl
    · rw [ih2.2.2, hstep]
      show (appendChunk st.buffer loudChunk).total_samples + k * 512 =
        st.buffer.total_samples + (k + 1) * 512
      rw [appendChunk]
      rw [show loudChunk.length = 512 from by rw [loudChunk, List.length_replicate]]
      ring

/-- The wake-word event of the C4 run. -/
def wakeEvC4 : AudioEvent := ⟨1000, 0, .wake_word, -(3 / 2), 0, "jarvis", "builtin", ""⟩

/-- C4 counterexample: in event_driven_v3 there is no per-session timeout:
after a wake word at stream time 0 followed by 40 s of loud audio (1250
chunks, no silence event ever emitted), the session is still active even
though more than 30 s of audio have elapsed since the wake word. -/
theorem no_timeout_in_v3 :
    ((runLoudChunks 1100 (processEvent asrNone emptyState wakeEvC4).1 1250).1.active_sessions.lookup
        (sessionIdOf wakeEvC4)) = some (sessionOfWake wakeEvC4) ∧
    (runLoudChunks 1100 (processEvent asrNone emptyState wakeEvC4).1 1250).2 = [] ∧
    streamPos (runLoudChunks 1100 (processEvent asrNone emptyState wakeEvC4).1
      1250).1.buffer = 40 ∧
    (30 : ℚ) < 40 - (sessionOfWake wakeEvC4).wake_word_end := by
  have hsess : (processEvent asrNone emptyState wakeEvC4).1.active_sessions =
      [(sessionIdOf wakeEvC4, sessionOfWake wakeEvC4)] := by
    simp [processEvent, wakeEvC4, emptyState, assocSet, sessionIdOf, sessionOfWake]
  have hrun := runLoudChunks_invariant 1100 (sessionIdOf wakeEvC4)
    (sessionOfWake wakeEvC4) rfl 1250 _ hsess
  refine ⟨?_, hrun.2.1, ?_, ?_⟩
  · rw [hrun.1]
    simp [List.lookup]
  · rw [streamPos, hrun.2.2]
    rw [show (processEvent asrNone emptyState wakeEvC4).1.buffer.total_samples = 0 from rfl]
    norm_num [SAMPLE_RATE]
  · rw [show (sessionOfWake wakeEvC4).wake_word_end = 0 from rfl]
    norm_num

/-- One observed iteration of the `process_session` loop of
continuous_main.py: the wall-clock seconds since session start, the
recorder stream timestamp, and whether the chunk of this iteration passed
the recorder silence test. -/
structure LoopIter where
  elapsed : ℚ
  current_timestamp : ℚ
  silent_chunk : Bool
deriving DecidableEq

inductive LoopExit
  | timeout
  | silence
  | stream_end
deriving DecidableEq

/-- The exit discipline of `process_session` (continuous_main.py lines
146-199): each iteration first breaks when more than 30 wall-clock seconds
have passed since session start, then processes chunks (no exit), then
breaks on a detected silence once past `wake_word_end +
INITIAL_SILENCE_IGNORE`; an exhausted list models `is_running = False`. -/
def process_session_loop (wake_word_end : ℚ) : List LoopIter → LoopExit
  | [] => .stream_end
  | it :: rest =>
    if 30 < it.elapsed then .timeout
    else if wake_word_end + INITIAL_SILENCE_IGNORE < it.current_timestamp ∧
        it.silent_chunk = true then .silence
    else process_session_loop wake_word_end rest

/-- C4 amended: event_driven_v3 has no session timeout (see the
counterexample); the ~30 s hard cap lives in the continuous_main
`process_session`, whose loop — when no silence break fires — exits by
timeout as soon as an iteration observes more than 30 wall-clock seconds
since session start, after which the session is finalized. -/
theorem session_hard_cap_in_continuous_main (wake_word_end : ℚ)
    (iters : List LoopIter)
    (hsil : ∀ it ∈ iters,
      ¬(wake_word_end + INITIAL_SILENCE_IGNORE < it.current_timestamp ∧
        it.silent_chunk = true))
    (htime : ∃ it ∈ iters, 30 < it.elapsed) :
    process_session_loop wake_word_end iters = .timeout := by
  induction iters with
  | nil =>
    obtain ⟨it, hmem, -⟩ := htime
    exact absurd hmem (List.not_mem_nil it)
  | cons it rest ih =>
    simp only [process_session_loop]
    by_cases h30 : 30 < it.elapsed
    · rw [if_pos h30]
    · rw [if_neg h30, if_neg (hsil it (List.mem_cons_self it rest))]
      apply ih
      · intro j hj
        exact hsil j (List.mem_cons_of_mem it hj)
      · obtain ⟨j, hj, hje⟩ := htime
        rcases List.mem_cons.mp hj with rfl | hj2
        · exact absurd hje h30
        · exact ⟨j, hj2, hje⟩

/-- Witness for the C4 amended theorem: one loud iteration at 31 s elapsed
exits by timeout. -/
theorem session_hard_cap_witness :
    process_session_loop 0 [⟨31, 10, false⟩] = .timeout := by
  apply session_hard_cap_in_continuous_main
  · intro it hit
    rcases List.mem_cons.mp hit with rfl | h
    · rintro ⟨-, hfalse⟩
      simp at hfalse
    · exact absurd h (List.not_mem_nil it)
  · exact ⟨⟨31, 10, false⟩, List.mem_cons_self _ _, by norm_num⟩

end VoiceAgent
